import Mathlib

/-!
Shallow embedding of the RAG-Application ingestion-and-retrieval pipeline
(content-addressed deduplication, token-aware chunking, batched embedding
generation, MMR retrieval, reranking, citation assembly and the background
job orchestrator), together with theorems checking the specification's
claims against the embedded code.

Modelling conventions:
* JS `number[]` embedding vectors are lists of rationals (`Embedding`).
* External network services (Google embedding API, Cohere rerank, Groq
  generation) are parameters of the functions that call them; a call that
  may fail is a value of `Option`/`Except`.
* Wall-clock timestamps (`Date.now()`) are explicit integer parameters.
* JS `Map`s are insertion-ordered association lists.
-/

/-- Embedding vectors (JS `number[]`) modelled as lists of rationals. -/
abbrev Embedding := List ℚ

/-- `ChunkMetadata` from `src/lib/types.ts` (the TS field `section` is
named `sectionName` here because `section` is a Lean keyword). -/
structure ChunkMetadata where
  source : String
  title : String
  sectionName : Option String
  position : Nat
  chunkIndex : Nat
  totalChunks : Nat
  documentId : String
  timestamp : String
  fileType : String
  tokens : Nat
deriving DecidableEq

/-- `DocumentChunk` from `src/lib/types.ts`. -/
structure DocumentChunk where
  id : String
  content : String
  metadata : ChunkMetadata
  embedding : Option Embedding := none
deriving DecidableEq

namespace EmbeddingOpt

/-!
`EmbeddingService` of `src/lib/embeddingsOptimized.ts`.

`generateEmbedding` (single text, retried with exponential backoff) is an
external Google API call; its overall outcome is a parameter
`embed : String → Option Embedding` (`some v` = a vector was obtained,
`none` = the call kept failing and the per-item `catch` recorded a `null`).

In `generateEmbeddings` every batch item stores its result at its original
index of the `embeddings` array (`embeddings[result.value.index] = ...`),
so regardless of batch grouping and completion order the array equals the
per-index outcomes, and concurrency does not affect the value.
-/

/-- The `embeddings : (number[] | null)[]` array after all batch groups of
`generateEmbeddings` have completed: slot `i` holds the outcome of
embedding `texts[i]`. -/
def generateEmbeddingsArray (embed : String → Option Embedding)
    (texts : List String) : List (Option Embedding) :=
  texts.map embed

/-- Return value of `EmbeddingService.generateEmbeddings`: the final
filter keeps only the successful vectors, compacted in original relative
order (`embeddings.forEach(... successfulEmbeddings.push ...)`). -/
def generateEmbeddings (embed : String → Option Embedding)
    (texts : List String) : List Embedding :=
  (generateEmbeddingsArray embed texts).filterMap id

/-- The `failedIndices` list logged at the end of `generateEmbeddings`:
indices whose slot stayed `null`. -/
def failedIndices (embed : String → Option Embedding)
    (texts : List String) : List Nat :=
  ((generateEmbeddingsArray embed texts).enum.filter
    (fun p => p.2.isNone)).map (fun p => p.1)

/-- The pairing loop of `generateChunkEmbeddings`: walks the chunk list
with a running `embeddingIndex` into the compacted success list, pairing
`chunks[i]` with `embeddings[embeddingIndex]` while vectors remain and
dropping the trailing chunks once the success list is exhausted. -/
def mapEmbeddingsToChunks : List DocumentChunk → List Embedding → List DocumentChunk
  | c :: cs, e :: es => { c with embedding := some e } :: mapEmbeddingsToChunks cs es
  | _, _ => []

/-- `EmbeddingService.generateChunkEmbeddings`. -/
def generateChunkEmbeddings (embed : String → Option Embedding)
    (chunks : List DocumentChunk) : List DocumentChunk :=
  mapEmbeddingsToChunks chunks
    (generateEmbeddings embed (chunks.map (fun c => c.content)))

/-- The behaviour the specification describes for
`generateChunkEmbeddings`: keep exactly the chunks whose own embedding
succeeded, each paired with the vector generated from its own content. -/
def specChunkEmbeddings (embed : String → Option Embedding)
    (chunks : List DocumentChunk) : List DocumentChunk :=
  chunks.filterMap
    (fun c => (embed c.content).map (fun e => { c with embedding := some e }))

/-- A concrete metadata record used in concrete evaluations. -/
def sampleMeta : ChunkMetadata :=
  { source := "a.txt", title := "a", sectionName := none, position := 0,
    chunkIndex := 0, totalChunks := 2, documentId := "d", timestamp := "t",
    fileType := "text", tokens := 40 }

/-- First sample chunk. -/
def chunkA : DocumentChunk :=
  { id := "c0", content := "aa", metadata := sampleMeta }

/-- Second sample chunk. -/
def chunkB : DocumentChunk :=
  { id := "c1", content := "bb", metadata := { sampleMeta with chunkIndex := 1 } }

/-- An embedding outcome in which the first chunk's text fails and the
second chunk's text succeeds with vector `[1]`. -/
def embedFailA : String → Option Embedding :=
  fun s => if s = "bb" then some [1] else none

end EmbeddingOpt

/-- C1: with two chunks where embedding fails exactly for the first
chunk's own content, `generateChunkEmbeddings` outputs a single chunk, but
it is the FAILED chunk `chunkA` carrying the vector generated from
`chunkB`'s content; the spec-described result (only `chunkB`, with its own
vector) differs.  The compacted success list is zipped against the chunk
list from position 0, so every chunk after a failed index is paired with a
later chunk's vector and the trailing successful chunks are dropped. -/
theorem C1_chunk_embedding_mispairs :
    EmbeddingOpt.generateChunkEmbeddings EmbeddingOpt.embedFailA
        [EmbeddingOpt.chunkA, EmbeddingOpt.chunkB]
      = [{ EmbeddingOpt.chunkA with embedding := some [1] }]
    ∧ EmbeddingOpt.specChunkEmbeddings EmbeddingOpt.embedFailA
        [EmbeddingOpt.chunkA, EmbeddingOpt.chunkB]
      = [{ EmbeddingOpt.chunkB with embedding := some [1] }]
    ∧ EmbeddingOpt.embedFailA EmbeddingOpt.chunkA.content = none
    ∧ EmbeddingOpt.failedIndices EmbeddingOpt.embedFailA
        [EmbeddingOpt.chunkA.content, EmbeddingOpt.chunkB.content] = [0] := by
  refine ⟨by decide, by decide, by decide, by decide⟩

/-- JS whitespace class (`\s` and `String.prototype.trim`): space, tab,
line/page breaks and the no-break space (the further Unicode members never
occur in the inputs considered here). -/
def jsWhitespace (c : Char) : Bool :=
  c = ' ' || c = '\t' || c = '\n' || c = '\r' ||
  c = '\x0b' || c = '\x0c' || c = ' '

/-- JS `String.prototype.trim` on a character list. -/
def jsTrimList (s : List Char) : List Char :=
  ((s.dropWhile jsWhitespace).reverse.dropWhile jsWhitespace).reverse

/-- JS `String.prototype.trim` on a string. -/
def jsTrim (s : String) : String :=
  (jsTrimList s.toList).asString

namespace DocCache

/-!
`DocumentCacheService` of `src/lib/documentCache.ts`.

The SHA-256 digest `crypto.createHash('sha256')...` is an opaque external
primitive, modelled as a parameter `h : String → String` applied to the
trimmed content.  `Date.now()` is an explicit parameter.  The JS `Map`
`documentHashes` is an insertion-ordered association list.
-/

/-- A value of the `documentHashes` map. -/
structure CacheEntry where
  hash : String
  filename : String
  timestamp : Int
  chunks : Nat
  tokens : Nat
deriving DecidableEq

/-- `UploadedFile` from `src/lib/types.ts`. -/
structure UploadedFile where
  name : String
  size : Nat
  type : String
  content : String
  lastModified : Int
  contentHash : Option String := none
deriving DecidableEq

/-- Insertion-ordered map backing the JS `Map<string, ...>`. -/
abbrev DocMap := List (String × CacheEntry)

/-- Both mutable fields of the service. -/
structure CacheState where
  documentHashes : DocMap
  chunkHashes : List String
deriving DecidableEq

/-- `Map.prototype.get`. -/
def mapGet? (k : String) : DocMap → Option CacheEntry
  | [] => none
  | (k', v) :: m => if k' = k then some v else mapGet? k m

/-- `Map.prototype.set`: overwrite in place, else append. -/
def mapSet (k : String) (v : CacheEntry) : DocMap → DocMap
  | [] => [(k, v)]
  | (k', v') :: m => if k' = k then (k, v) :: m else (k', v') :: mapSet k v m

/-- `Map.prototype.delete`. -/
def mapDelete (k : String) : DocMap → DocMap
  | [] => []
  | (k', v') :: m => if k' = k then m else (k', v') :: mapDelete k m

/-- `CACHE_EXPIRY_HOURS = 24 * 7`. -/
def cacheExpiryHours : ℚ := 24 * 7

/-- `calculateContentHash`: digest of the trimmed content. -/
def calculateContentHash (h : String → String) (content : String) : String :=
  h (jsTrim content)

/-- `isDocumentDuplicate(content)`: looks the digest up in
`documentHashes`; a fresh entry is a duplicate, an entry at least
`CACHE_EXPIRY_HOURS` old is deleted and reported as non-duplicate.
Returns `((isDuplicate, existingEntry), state after the lazy eviction)`. -/
def isDocumentDuplicate (h : String → String) (st : CacheState) (now : Int)
    (content : String) : (Bool × Option CacheEntry) × CacheState :=
  let hash := calculateContentHash h content
  match mapGet? hash st.documentHashes with
  | some e =>
      let hoursSinceProcessed : ℚ := ((now - e.timestamp : Int) : ℚ) / (1000 * 60 * 60)
      if hoursSinceProcessed < cacheExpiryHours then
        ((true, some e), st)
      else
        ((false, none), { st with documentHashes := mapDelete hash st.documentHashes })
  | none => ((false, none), st)

/-- The JS-truthy fallback `file.contentHash || this.calculateContentHash(
file.content)` (an empty-string hash is falsy). -/
def contentHashOr (h : String → String) (file : UploadedFile) : String :=
  match file.contentHash with
  | some s => if s = "" then calculateContentHash h file.content else s
  | none => calculateContentHash h file.content

/-- Loop of `filterDuplicateFiles` over the batch, carrying
`currentBatchHashes`; a within-batch repeat is skipped by `continue`
(recorded nowhere), a registry duplicate goes to `duplicates`, anything
else goes to `uniqueFiles` with its hash filled in. -/
def filterDuplicateFilesLoop (h : String → String) (now : Int) :
    List UploadedFile → List String → CacheState →
    List UploadedFile × List (UploadedFile × CacheEntry) × CacheState
  | [], _, st => ([], [], st)
  | f :: fs, batch, st =>
      let hash := contentHashOr h f
      if hash ∈ batch then
        filterDuplicateFilesLoop h now fs batch st
      else
        match isDocumentDuplicate h st now f.content with
        | ((true, some e), st') =>
            let (u, d, st'') := filterDuplicateFilesLoop h now fs batch st'
            (u, (f, e) :: d, st'')
        | ((_, _), st') =>
            let (u, d, st'') := filterDuplicateFilesLoop h now fs (hash :: batch) st'
            ({ f with contentHash := some hash } :: u, d, st'')

/-- `filterDuplicateFiles(files)`. -/
def filterDuplicateFiles (h : String → String) (st : CacheState) (now : Int)
    (files : List UploadedFile) :
    List UploadedFile × List (UploadedFile × CacheEntry) × CacheState :=
  filterDuplicateFilesLoop h now files [] st

/-- `registerProcessedDocument(file, chunks)`: stores the entry under the
file's digest and records every chunk digest in `chunkHashes`. -/
def registerProcessedDocument (h : String → String) (st : CacheState)
    (now : Int) (file : UploadedFile) (chunks : List DocumentChunk) : CacheState :=
  let hash := contentHashOr h file
  let totalTokens := (chunks.map (fun c => c.metadata.tokens)).sum
  let entry : CacheEntry :=
    { hash := hash, filename := file.name, timestamp := now,
      chunks := chunks.length, tokens := totalTokens }
  { documentHashes := mapSet hash entry st.documentHashes,
    chunkHashes := st.chunkHashes ++ chunks.map (fun c => calculateContentHash h c.content) }

/-- A sample uploaded file used in concrete evaluations. -/
def sampleFile : UploadedFile :=
  { name := "a.txt", size := 5, type := "text/plain", content := "hello",
    lastModified := 0 }

/-- A second upload of byte-identical content. -/
def sampleFileCopy : UploadedFile :=
  { name := "b.txt", size := 5, type := "text/plain", content := "hello",
    lastModified := 1 }

end DocCache

namespace DocCache

/-- Looking a key up right after `mapSet` stored it yields the stored
entry. -/
theorem mapGet?_mapSet_self (k : String) (v : CacheEntry) (m : DocMap) :
    mapGet? k (mapSet k v m) = some v := by
  induction m with
  | nil => simp [mapSet, mapGet?]
  | cons p m ih =>
      by_cases hk : p.1 = k
      · simp [mapSet, mapGet?, hk]
      · simpa [mapSet, mapGet?, hk] using ih

/-- The freshness test of `isDocumentDuplicate` in milliseconds: the age
in hours is below `cacheExpiryHours` iff the raw difference is below
7 days. -/
theorem hoursSince_lt_iff (d : Int) :
    ((d : ℚ) / (1000 * 60 * 60) < cacheExpiryHours) ↔ d < 604800000 := by
  rw [cacheExpiryHours, div_lt_iff₀ (by norm_num : (0 : ℚ) < 1000 * 60 * 60)]
  constructor
  · intro hq
    have hq' : (d : ℚ) < 604800000 := by linarith
    exact_mod_cast hq'
  · intro hz
    have hz' : (d : ℚ) < 604800000 := by exact_mod_cast hz
    linarith

end DocCache

/-- C3 (counterexample): uploading the same 5-byte content twice in one
batch against an empty registry yields ONE unique entry and an EMPTY
duplicates list (the within-batch repeat is skipped by `continue` and
recorded nowhere), refuting the claimed `1 unique / 1 duplicate` split.
The digest is instantiated with the identity function on trimmed content. -/
theorem C3_within_batch_duplicate_not_listed :
    (DocCache.filterDuplicateFiles (fun s => s) ⟨[], []⟩ 0
        [DocCache.sampleFile, DocCache.sampleFileCopy]).1.length = 1
    ∧ (DocCache.filterDuplicateFiles (fun s => s) ⟨[], []⟩ 0
        [DocCache.sampleFile, DocCache.sampleFileCopy]).2.1 = []
    ∧ ¬ (DocCache.filterDuplicateFiles (fun s => s) ⟨[], []⟩ 0
        [DocCache.sampleFile, DocCache.sampleFileCopy]).2.1.length = 1 := by
  refine ⟨by decide, by decide, by decide⟩

/-- C3 (amended): for every digest function, batch of two byte-identical
files with no precomputed hash, and registry without an entry for that
content, `filterDuplicateFiles` returns exactly one entry in the unique
list (the first file, with its digest filled in) and an empty duplicates
list: the within-batch repeat is dropped silently, and the `duplicates`
list records only registry-level duplicates. -/
theorem C3_amended_batch_dedup (h : String → String) (now : Int)
    (st : DocCache.CacheState) (f1 f2 : DocCache.UploadedFile)
    (h1 : f1.contentHash = none) (h2 : f2.contentHash = none)
    (hc : f2.content = f1.content)
    (hreg : DocCache.mapGet? (DocCache.calculateContentHash h f1.content)
        st.documentHashes = none) :
    DocCache.filterDuplicateFiles h st now [f1, f2]
      = ([{ f1 with contentHash := some (DocCache.calculateContentHash h f1.content) }], [], st) := by
  simp [DocCache.filterDuplicateFiles, DocCache.filterDuplicateFilesLoop,
        DocCache.contentHashOr, DocCache.isDocumentDuplicate, h1, h2, hc, hreg]

/-- C3 witness: the amended theorem applied to the two concrete sample
files and the empty registry. -/
theorem C3_amended_batch_dedup_witness :
    DocCache.filterDuplicateFiles (fun s => s) ⟨[], []⟩ 0
        [DocCache.sampleFile, DocCache.sampleFileCopy]
      = ([{ DocCache.sampleFile with contentHash := some (DocCache.calculateContentHash (fun s => s) DocCache.sampleFile.content) }], [], ⟨[], []⟩) :=
  C3_amended_batch_dedup (fun s => s) 0 ⟨[], []⟩ DocCache.sampleFile
    DocCache.sampleFileCopy rfl rfl rfl rfl

/-- C8: registering content at time `t0` and looking trim-identical
content up at time `t` reports a duplicate (with the registered entry,
state unchanged) exactly when `t − t0` is under the 7-day window
(604800000 ms), and otherwise reports non-duplicate while deleting the
expired entry. -/
theorem C8_retention_window (h : String → String) (st : DocCache.CacheState)
    (t0 t : Int) (file : DocCache.UploadedFile) (chunks : List DocumentChunk)
    (c : String) (hch : file.contentHash = none)
    (htrim : jsTrim c = jsTrim file.content) :
    (t - t0 < 604800000 →
      DocCache.isDocumentDuplicate h
          (DocCache.registerProcessedDocument h st t0 file chunks) t c
        = ((true, some
            { hash := DocCache.calculateContentHash h file.content,
              filename := file.name, timestamp := t0,
              chunks := chunks.length,
              tokens := (chunks.map (fun ch => ch.metadata.tokens)).sum }),
           DocCache.registerProcessedDocument h st t0 file chunks))
    ∧ (604800000 ≤ t - t0 →
      DocCache.isDocumentDuplicate h
          (DocCache.registerProcessedDocument h st t0 file chunks) t c
        = ((false, none),
           { DocCache.registerProcessedDocument h st t0 file chunks with
              documentHashes := DocCache.mapDelete
                (DocCache.calculateContentHash h file.content)
                (DocCache.registerProcessedDocument h st t0 file chunks).documentHashes })) := by
  have hkey : DocCache.calculateContentHash h c
      = DocCache.calculateContentHash h file.content := by
    simp [DocCache.calculateContentHash, htrim]
  have hget : DocCache.mapGet? (DocCache.calculateContentHash h c)
      (DocCache.registerProcessedDocument h st t0 file chunks).documentHashes
      = some
        { hash := DocCache.calculateContentHash h file.content,
          filename := file.name, timestamp := t0,
          chunks := chunks.length,
          tokens := (chunks.map (fun ch => ch.metadata.tokens)).sum } := by
    rw [hkey]
    simp [DocCache.registerProcessedDocument, DocCache.contentHashOr, hch,
      DocCache.mapGet?_mapSet_self]
  constructor
  · intro hfresh
    simp only [DocCache.isDocumentDuplicate, hget]
    rw [if_pos]
    exact (DocCache.hoursSince_lt_iff (t - t0)).mpr hfresh
  · intro hold
    simp only [DocCache.isDocumentDuplicate, hget]
    rw [if_neg, hkey]
    rw [DocCache.hoursSince_lt_iff (t - t0)]
    omega

/-- C8 witness: a file registered at time 0 and looked up at time 10
(inside the window) and the same theorem instance's expired branch
holding vacuously. -/
theorem C8_retention_window_witness :
    DocCache.isDocumentDuplicate (fun s => s)
        (DocCache.registerProcessedDocument (fun s => s) ⟨[], []⟩ 0
          DocCache.sampleFile []) 10 "hello"
      = ((true, some
          { hash := DocCache.calculateContentHash (fun s => s)
              DocCache.sampleFile.content,
            filename := DocCache.sampleFile.name, timestamp := 0,
            chunks := 0, tokens := 0 }),
         DocCache.registerProcessedDocument (fun s => s) ⟨[], []⟩ 0
           DocCache.sampleFile []) :=
  (C8_retention_window (fun s => s) ⟨[], []⟩ 0 10 DocCache.sampleFile [] "hello"
    rfl rfl).1 (by decide)

/-- `RetrievalResult` from `src/lib/types.ts`. -/
structure RetrievalResult where
  chunk : DocumentChunk
  score : ℚ
  rerankedScore : Option ℚ := none
deriving DecidableEq

/-- Stable descending insertion into a sorted list: the inserted element
(the original-earlier one) goes before the first element whose key is not
larger. -/
def insertDesc (key : α → ℚ) (x : α) : List α → List α
  | [] => [x]
  | y :: ys => if key x < key y then y :: insertDesc key x ys else x :: y :: ys

/-- Stable descending sort by a rational key.  ES2019 `Array.prototype.sort`
is specified stable, and a stable sort consistent with the comparator
`(a, b) => key(b) - key(a)` is unique, so this models the JS sort exactly. -/
def sortByDesc (key : α → ℚ) (l : List α) : List α :=
  l.foldr (insertDesc key) []

namespace Reranker

/-!
`RerankerService` of `src/lib/reranker.ts`.

The Cohere API call is a parameter `resp`: `.ok items` is a response with
`{index, relevanceScore}` entries, `.error ()` any thrown failure.  A
response index outside the submitted window would make the JS spread
produce a chunk-less object; such items are dropped here (no claim
depends on the success path).  `config.reranker.topN = 1`.
-/

/-- One entry of the Cohere rerank response. -/
structure RerankItem where
  index : Nat
  relevanceScore : ℚ
deriving DecidableEq

/-- `config.reranker.topN`. -/
def defaultTopN : Nat := 1

/-- The JS-truthy fallback `topN || this.topN` (0 and `undefined` both
fall back to the configured value). -/
def effectiveTopN : Option Nat → Nat
  | some n => if n = 0 then defaultTopN else n
  | none => defaultTopN

/-- `RerankerService.rerank`: empty input short-circuits; a successful
response is mapped back onto the first `min(50, length)` results
(overwriting `score` and setting `rerankedScore`) and stably re-sorted by
descending reranked score; any failure falls back to the original
top-`topN` slice. -/
def rerank (resp : Except Unit (List RerankItem))
    (results : List RetrievalResult) (topN : Option Nat) : List RetrievalResult :=
  if results.isEmpty then []
  else
    match resp with
    | .error _ => results.take (effectiveTopN topN)
    | .ok items =>
        let limitedResults := results.take (min 50 results.length)
        let mapped := items.filterMap (fun r =>
          (limitedResults.get? r.index).map (fun o =>
            { o with rerankedScore := some r.relevanceScore,
                     score := r.relevanceScore }))
        sortByDesc (fun a => a.rerankedScore.getD 0) mapped

end Reranker

/-- C6: whenever the external reranking call fails, `rerank` swallows the
error and returns the original results truncated to the effective `topN`
(for every result list, including the non-empty ones of the claim), with
chunks, scores and ordering untouched (it is a prefix of the input). -/
theorem C6_rerank_failure_returns_topN_slice
    (results : List RetrievalResult) (topN : Option Nat) :
    Reranker.rerank (Except.error ()) results topN
      = results.take (Reranker.effectiveTopN topN) := by
  cases results with
  | nil => simp [Reranker.rerank]
  | cons r rs => simp [Reranker.rerank]

namespace Retriever

/-!
The MMR selection loop of `RetrieverService.retrieveWithMMR`
(`src/lib/retriever.ts`).  The candidate fetch (`retrieve`, candidate
count `min(3·topK, 100)`) and the content embeddings recomputed for
diversity scoring are external calls; the pairwise similarity they induce
(`cosineSimilarity` of the two content embeddings) is the parameter
`sim`.  Scores are rationals.
-/

/-- The inner `maxSimilarity` accumulator: starts at 0 and takes the max
over every already-selected result. -/
def maxSimilarityTo (sim : RetrievalResult → RetrievalResult → ℚ)
    (c : RetrievalResult) (selected : List RetrievalResult) : ℚ :=
  selected.foldl (fun m s => max m (sim c s)) 0

/-- The combined MMR score `λ·relevance + (1−λ)·diversity`, with
diversity 0 while nothing is selected and `−maxSimilarity` afterwards. -/
def mmrScore (lambda : ℚ) (sim : RetrievalResult → RetrievalResult → ℚ)
    (selected : List RetrievalResult) (c : RetrievalResult) : ℚ :=
  lambda * c.score +
    (1 - lambda) *
      (if selected.isEmpty then 0 else -(maxSimilarityTo sim c selected))

/-- The best-candidate scan: `bestScore` starts at `−∞` (modelled by
`none`), `bestIndex` at 0, and only a strictly greater MMR score takes
over, so ties keep the first-encountered index.  Returns the selected
index, candidate and score. -/
def bestCandidate? (lambda : ℚ) (sim : RetrievalResult → RetrievalResult → ℚ)
    (selected : List RetrievalResult) (remaining : List RetrievalResult) :
    Option (Nat × RetrievalResult × ℚ) :=
  remaining.enum.foldl
    (fun acc p =>
      let s := mmrScore lambda sim selected p.2
      match acc with
      | none => some (p.1, p.2, s)
      | some (bi, bc, bs) =>
          if bs < s then some (p.1, p.2, s) else some (bi, bc, bs))
    none

/-- The greedy selection loop: up to `topK` rounds (the budget argument),
each appending the best remaining candidate to `selected` and splicing it
out of `remaining`; stops early when candidates are exhausted. -/
def mmrLoop (lambda : ℚ) (sim : RetrievalResult → RetrievalResult → ℚ) :
    Nat → List RetrievalResult → List RetrievalResult → List RetrievalResult
  | 0, selected, _ => selected
  | _ + 1, selected, [] => selected
  | b + 1, selected, r :: rs =>
      match bestCandidate? lambda sim selected (r :: rs) with
      | some (i, c, _) =>
          mmrLoop lambda sim b (selected ++ [c]) ((r :: rs).eraseIdx i)
      | none => selected

/-- The selection phase of `retrieveWithMMR` applied to the fetched
candidate list. -/
def retrieveWithMMRSelect (lambda : ℚ)
    (sim : RetrievalResult → RetrievalResult → ℚ) (topK : Nat)
    (candidates : List RetrievalResult) : List RetrievalResult :=
  mmrLoop lambda sim topK [] candidates

/-- With `λ = 1` the MMR score of a candidate is exactly its retrieval
score, whatever is already selected. -/
theorem mmrScore_lambda_one (sim : RetrievalResult → RetrievalResult → ℚ)
    (selected : List RetrievalResult) (c : RetrievalResult) :
    mmrScore 1 sim selected c = c.score := by
  simp [mmrScore]

/-- A fold step of the best-candidate scan never moves off an accumulator
whose score bounds every remaining MMR score. -/
theorem bestCandidate_fold_stay (lambda : ℚ)
    (sim : RetrievalResult → RetrievalResult → ℚ)
    (selected : List RetrievalResult) (l : List (Nat × RetrievalResult))
    (bi : Nat) (bc : RetrievalResult) (bs : ℚ)
    (hub : ∀ p ∈ l, mmrScore lambda sim selected p.2 ≤ bs) :
    l.foldl
      (fun acc p =>
        let s := mmrScore lambda sim selected p.2
        match acc with
        | none => some (p.1, p.2, s)
        | some (bi, bc, bs) =>
            if bs < s then some (p.1, p.2, s) else some (bi, bc, bs))
      (some (bi, bc, bs)) = some (bi, bc, bs) := by
  induction l with
  | nil => rfl
  | cons p l ih =>
      have hp := hub p (List.mem_cons_self p l)
      have hrest : ∀ q ∈ l, mmrScore lambda sim selected q.2 ≤ bs :=
        fun q hq => hub q (List.mem_cons_of_mem p hq)
      simp only [List.foldl_cons, if_neg (not_lt.mpr hp)]
      exact ih hrest

/-- With `λ = 1` and a score-descending candidate list, the scan settles
on index 0: the head candidate. -/
theorem bestCandidate_sorted_head (sim : RetrievalResult → RetrievalResult → ℚ)
    (selected : List RetrievalResult) (c : RetrievalResult)
    (cs : List RetrievalResult)
    (hsort : (c :: cs).Pairwise (fun a b => b.score ≤ a.score)) :
    bestCandidate? 1 sim selected (c :: cs) = some (0, c, c.score) := by
  have hle : ∀ x ∈ cs, x.score ≤ c.score :=
    fun x hx => (List.pairwise_cons.mp hsort).1 x hx
  have hub : ∀ p ∈ cs.enumFrom 1,
      mmrScore 1 sim selected p.2 ≤ mmrScore 1 sim selected c := by
    intro p hp
    rw [mmrScore_lambda_one, mmrScore_lambda_one]
    refine hle p.2 ?_
    rw [← List.enumFrom_map_snd 1 cs]
    exact List.mem_map_of_mem Prod.snd hp
  have hstay := bestCandidate_fold_stay 1 sim selected (cs.enumFrom 1) 0 c
    (mmrScore 1 sim selected c) hub
  calc bestCandidate? 1 sim selected (c :: cs)
      = some (0, c, mmrScore 1 sim selected c) := hstay
    _ = some (0, c, c.score) := by rw [mmrScore_lambda_one]

/-- With `λ = 1`, the loop on a score-descending remainder appends its
first `budget` elements to the already-selected prefix. -/
theorem mmrLoop_lambda_one (sim : RetrievalResult → RetrievalResult → ℚ)
    (budget : Nat) (selected : List RetrievalResult)
    (remaining : List RetrievalResult)
    (hsort : remaining.Pairwise (fun a b => b.score ≤ a.score)) :
    mmrLoop 1 sim budget selected remaining
      = selected ++ remaining.take budget := by
  induction budget generalizing selected remaining with
  | zero => simp [mmrLoop]
  | succ b ih =>
      cases remaining with
      | nil => simp [mmrLoop]
      | cons c cs =>
          rw [show mmrLoop 1 sim (b + 1) selected (c :: cs)
              = match bestCandidate? 1 sim selected (c :: cs) with
                | some (i, x, _) =>
                    mmrLoop 1 sim b (selected ++ [x]) ((c :: cs).eraseIdx i)
                | none => selected from rfl,
            bestCandidate_sorted_head sim selected c cs hsort]
          simp only [List.eraseIdx_cons_zero, List.take_succ_cons]
          rw [ih (selected ++ [c]) cs (List.Pairwise.of_cons hsort)]
          simp

end Retriever

/-- C4: with `λ = 1`, MMR selection over a score-descending candidate
list (as delivered by the underlying retrieval) returns exactly the
first `min(topK, |candidates|)` candidates in their original relevance
order, for every similarity function and every `topK`. -/
theorem C4_mmr_lambda_one_is_topk (sim : RetrievalResult → RetrievalResult → ℚ)
    (topK : Nat) (candidates : List RetrievalResult)
    (hsort : candidates.Pairwise (fun a b => b.score ≤ a.score)) :
    Retriever.retrieveWithMMRSelect 1 sim topK candidates
      = candidates.take topK := by
  rw [Retriever.retrieveWithMMRSelect,
    Retriever.mmrLoop_lambda_one sim topK [] candidates hsort]
  simp

/-- A retrieval result with a given id and score, used in concrete
evaluations. -/
def mkResult (id : String) (score : ℚ) : RetrievalResult :=
  { chunk := { id := id, content := id, metadata := EmbeddingOpt.sampleMeta },
    score := score }

/-- C4 witness: a concrete sorted 3-candidate list with `topK = 2` where
`λ = 1` MMR selection returns the first two candidates. -/
theorem C4_mmr_lambda_one_is_topk_witness :
    Retriever.retrieveWithMMRSelect 1 (fun _ _ => (1 : ℚ)) 2
        [mkResult "x" 5, mkResult "y" 3, mkResult "z" 2]
      = [mkResult "x" 5, mkResult "y" 3] :=
  C4_mmr_lambda_one_is_topk (fun _ _ => (1 : ℚ)) 2
    [mkResult "x" 5, mkResult "y" 3, mkResult "z" 2] (by decide)

namespace LLM

/-!
`LLMService` of `src/lib/llm.ts`.

The Groq chat-completion call is a parameter
`gen : String → String → Except Unit Completion` (system prompt, user
prompt); `.error ()` covers API failure and the 30 s timeout.  The
successive `Date.now()` readings are explicit parameters.
-/

/-- `Citation` from `src/lib/types.ts`. -/
structure Citation where
  id : Nat
  text : String
  source : String
  sectionName : Option String
  position : Nat
deriving DecidableEq

/-- `SourceDocument` from `src/lib/types.ts`. -/
structure SourceDocument where
  id : String
  title : String
  source : String
  relevantChunks : List Nat
  fileType : String
deriving DecidableEq

/-- `tokensUsed` of `QueryMetrics`. -/
structure TokensUsed where
  input : Nat
  output : Nat
  total : Nat
deriving DecidableEq

/-- `costEstimate` of `QueryMetrics`. -/
structure CostEstimate where
  embedding : ℚ
  llm : ℚ
  reranking : ℚ
  total : ℚ
deriving DecidableEq

/-- `QueryMetrics` from `src/lib/types.ts`. -/
structure QueryMetrics where
  totalTime : Int
  retrievalTime : Int
  rerankingTime : Int
  llmTime : Int
  embeddingTime : Int
  tokensUsed : TokensUsed
  costEstimate : CostEstimate
deriving DecidableEq

/-- `QueryResult` from `src/lib/types.ts`. -/
structure QueryResult where
  query : String
  answer : String
  citations : List Citation
  sources : List SourceDocument
  retrievalResults : List RetrievalResult
  metrics : QueryMetrics
  timestamp : String
deriving DecidableEq

/-- A Groq chat completion as consumed by `generateAnswer`:
`choices[0]?.message?.content` and the optional `usage` block. -/
structure Completion where
  content : Option String
  usage : Option TokensUsed
deriving DecidableEq

/-- One `[n] content` block of the context text. -/
def citationEntry (cid : Nat) (content : String) : String :=
  "[" ++ toString cid ++ "] " ++ content ++ "\n\n"

/-- The `sourceMap` update for one result: find the bucket keyed by the
chunk's `documentId` (creating it on first sight, preserving insertion
order) and push the citation id at the end of its `relevantChunks`. -/
def pushCitation : List SourceDocument → ChunkMetadata → Nat → List SourceDocument
  | [], m, cid =>
      [{ id := m.documentId, title := m.title, source := m.source,
         relevantChunks := [cid], fileType := m.fileType }]
  | s :: ss, m, cid =>
      if s.id = m.documentId then
        { s with relevantChunks := s.relevantChunks ++ [cid] } :: ss
      else
        s :: pushCitation ss m cid

/-- The `forEach` body of `prepareContextWithCitations`, with explicit
accumulators for `citations`, `contextText` and the source map. -/
def prepLoop : List RetrievalResult → Nat → List Citation → String →
    List SourceDocument → List Citation × String × List SourceDocument
  | [], _, cits, ctx, srcs => (cits, ctx, srcs)
  | r :: rs, idx, cits, ctx, srcs =>
      let citationId := idx + 1
      let m := r.chunk.metadata
      prepLoop rs (idx + 1)
        (cits ++ [{ id := citationId, text := r.chunk.content,
                    source := m.source, sectionName := m.sectionName,
                    position := m.position }])
        (ctx ++ citationEntry citationId r.chunk.content)
        (pushCitation srcs m citationId)

/-- `LLMService.prepareContextWithCitations`: returns
`(contextText, citations, sources)`. -/
def prepareContextWithCitations (results : List RetrievalResult) :
    String × List Citation × List SourceDocument :=
  let out := prepLoop results 0 [] "Context information:\n\n" []
  (out.2.1, out.1, out.2.2)

/-- `config.llm.systemPrompt`. -/
def systemPrompt : String :=
  "You are a helpful AI assistant that answers questions based on the provided context. \nAlways include inline citations [1], [2], etc. for each piece of information you reference from the context.\nIf you cannot answer based on the provided context, say so clearly.\nBe concise but comprehensive in your responses.\nProvide accurate, well-structured answers with proper citations."

/-- `LLMService.createPrompt`. -/
def createPrompt (query contextText : String) : String :=
  contextText ++ "\n\nQuestion: " ++ query ++
  "\n\nPlease answer the question based on the provided context. Include inline citations using the format [1], [2], etc. to reference specific pieces of information from the context. If you cannot answer the question based on the provided context, please say so clearly.\n\nAnswer:"

/-- The fixed no-answer text of `createNoAnswerResponse`. -/
def noAnswerText : String :=
  "I don\x27t have enough relevant information in my knowledge base to answer your question. Please try uploading relevant documents or rephrasing your question."

/-- `LLMService.createNoAnswerResponse`. -/
def createNoAnswerResponse (query : String) (startTime now : Int)
    (ts : String) : QueryResult :=
  { query := query, answer := noAnswerText, citations := [], sources := [],
    retrievalResults := [],
    metrics :=
      { totalTime := now - startTime, retrievalTime := 0, rerankingTime := 0,
        llmTime := 0, embeddingTime := 0,
        tokensUsed := { input := 0, output := 0, total := 0 },
        costEstimate := { embedding := 0, llm := 0, reranking := 0, total := 0 } },
    timestamp := ts }

/-- `LLMService.calculateCost`. -/
def calculateCost (totalTokens : Nat) : CostEstimate :=
  let llmCost : ℚ := totalTokens * (69 / 100 / 1000000)
  { embedding := 0, llm := llmCost, reranking := 0, total := llmCost }

/-- `LLMService.generateAnswer`.  `gen` is the external Groq call; the
timestamps are the successive `Date.now()` readings (`startTime`,
`llmStartTime`, `llmEndTime`, `now`).  Empty retrieval results
short-circuit to the no-answer response before `gen` is ever applied; a
`gen` failure is rethrown (`Except.error`). -/
def generateAnswer (gen : String → String → Except Unit Completion)
    (query : String) (retrievalResults : List RetrievalResult)
    (includeMetrics : Bool) (startTime llmStartTime llmEndTime now : Int)
    (ts : String) : Except Unit QueryResult :=
  if retrievalResults.isEmpty then
    Except.ok (createNoAnswerResponse query startTime now ts)
  else
    let prepared := prepareContextWithCitations retrievalResults
    let userPrompt := createPrompt query prepared.1
    match gen systemPrompt userPrompt with
    | Except.error e => Except.error e
    | Except.ok completion =>
        let answer := completion.content.getD
          "I apologize, but I could not generate a response."
        let totalTokens := (completion.usage.map (fun u => u.total)).getD 0
        Except.ok
          { query := query, answer := answer, citations := prepared.2.1,
            sources := prepared.2.2, retrievalResults := retrievalResults,
            metrics :=
              if includeMetrics then
                { totalTime := now - startTime, retrievalTime := 0,
                  rerankingTime := 0, llmTime := llmEndTime - llmStartTime,
                  embeddingTime := 0,
                  tokensUsed :=
                    { input := (completion.usage.map (fun u => u.input)).getD 0,
                      output := (completion.usage.map (fun u => u.output)).getD 0,
                      total := totalTokens },
                  costEstimate := calculateCost totalTokens }
              else
                { totalTime := 0, retrievalTime := 0, rerankingTime := 0,
                  llmTime := 0, embeddingTime := 0,
                  tokensUsed := { input := 0, output := 0, total := 0 },
                  costEstimate := { embedding := 0, llm := 0, reranking := 0, total := 0 } },
            timestamp := ts }

end LLM

namespace RAGSvc

/-!
The final-results check of `RAGService.query` (`src/lib/ragService.ts`,
step 3 → step 4): with an empty final result list the service returns an
inline no-answer object and never reaches the LLM generation step, which
is the parameter `runLLM`.
-/

/-- The `finalResults.length === 0` branch of `RAGService.query` and the
hand-off to `LLMService.generateAnswer` otherwise. -/
def queryEmptyGuard (finalResults : List RetrievalResult) (question : String)
    (retrievalTime rerankingTime startTime now : Int) (ts : String)
    (runLLM : List RetrievalResult → LLM.QueryResult) : LLM.QueryResult :=
  if finalResults.isEmpty then
    { query := question, answer := LLM.noAnswerText, citations := [],
      sources := [], retrievalResults := [],
      metrics :=
        { totalTime := now - startTime, retrievalTime := retrievalTime,
          rerankingTime := rerankingTime, llmTime := 0, embeddingTime := 0,
          tokensUsed := { input := 0, output := 0, total := 0 },
          costEstimate := { embedding := 0, llm := 0, reranking := 0, total := 0 } },
      timestamp := ts }
  else runLLM finalResults

end RAGSvc

/-- C7: with an empty final retrieval-result list, `generateAnswer`
returns the fixed insufficient-information response (empty citations and
sources) for EVERY generation function `gen` — so the external generation
service is never consulted — and likewise the `RAGService.query` guard
returns its fixed no-answer object for every downstream `runLLM`. -/
theorem C7_empty_results_no_generation (query : String) (im : Bool)
    (st lt1 lt2 now : Int) (ts : String) :
    (∀ gen, LLM.generateAnswer gen query [] im st lt1 lt2 now ts
        = Except.ok (LLM.createNoAnswerResponse query st now ts))
    ∧ (LLM.createNoAnswerResponse query st now ts).answer = LLM.noAnswerText
    ∧ (LLM.createNoAnswerResponse query st now ts).citations = []
    ∧ (LLM.createNoAnswerResponse query st now ts).sources = []
    ∧ (∀ rt rk runLLM,
        RAGSvc.queryEmptyGuard [] query rt rk st now ts runLLM
          = { query := query, answer := LLM.noAnswerText, citations := [],
              sources := [], retrievalResults := [],
              metrics :=
                { totalTime := now - st, retrievalTime := rt,
                  rerankingTime := rk, llmTime := 0, embeddingTime := 0,
                  tokensUsed := { input := 0, output := 0, total := 0 },
                  costEstimate := { embedding := 0, llm := 0, reranking := 0, total := 0 } },
              timestamp := ts }) := by
  refine ⟨fun gen => rfl, rfl, rfl, rfl, fun rt rk runLLM => rfl⟩

namespace LLM

/-- The citation built for the result at 0-based rank `idx`. -/
def citationOf (idx : Nat) (r : RetrievalResult) : Citation :=
  { id := idx + 1, text := r.chunk.content, source := r.chunk.metadata.source,
    sectionName := r.chunk.metadata.sectionName,
    position := r.chunk.metadata.position }

/-- The context entries contributed by the results from rank `idx` on,
one `[n] content` block per result in rank order. -/
def contextFrom : List RetrievalResult → Nat → String
  | [], _ => ""
  | r :: rs, idx => citationEntry (idx + 1) r.chunk.content ++ contextFrom rs (idx + 1)

/-- All citation ids held by a source-document list, in order. -/
def citedIds (srcs : List SourceDocument) : List Nat :=
  (srcs.map (fun s => s.relevantChunks)).flatten

/-- A source document only cites ids of results whose `documentId` is its
own key. -/
def citedDocOk (results : List RetrievalResult) (s : SourceDocument) : Prop :=
  ∀ cid ∈ s.relevantChunks, 1 ≤ cid ∧
    ∃ r, results[cid - 1]? = some r ∧ r.chunk.metadata.documentId = s.id

/-- The citation accumulator of `prepLoop` grows by exactly one citation
per result, ids counting on from `idx + 1`. -/
theorem prepLoop_citations (rs : List RetrievalResult) (idx : Nat)
    (cits : List Citation) (ctx : String) (srcs : List SourceDocument) :
    (prepLoop rs idx cits ctx srcs).1
      = cits ++ (rs.enumFrom idx).map (fun p => citationOf p.1 p.2) := by
  induction rs generalizing idx cits ctx srcs with
  | nil => simp [prepLoop]
  | cons r rs ih =>
      rw [prepLoop, ih]
      simp [List.enumFrom, citationOf]

/-- The context accumulator of `prepLoop` grows by exactly the remaining
entries in rank order. -/
theorem prepLoop_context (rs : List RetrievalResult) (idx : Nat)
    (cits : List Citation) (ctx : String) (srcs : List SourceDocument) :
    (prepLoop rs idx cits ctx srcs).2.1 = ctx ++ contextFrom rs idx := by
  induction rs generalizing idx cits ctx srcs with
  | nil => simp [prepLoop, contextFrom]
  | cons r rs ih =>
      rw [prepLoop, ih, contextFrom]
      simp [String.append_assoc]

/-- `pushCitation` adds exactly the pushed id to the multiset of cited
ids. -/
theorem citedIds_pushCitation (srcs : List SourceDocument)
    (m : ChunkMetadata) (cid : Nat) :
    (citedIds (pushCitation srcs m cid)).Perm (citedIds srcs ++ [cid]) := by
  induction srcs with
  | nil => simp [citedIds, pushCitation]
  | cons s ss ih =>
      by_cases hid : s.id = m.documentId
      · have hpush : pushCitation (s :: ss) m cid
            = { s with relevantChunks := s.relevantChunks ++ [cid] } :: ss := by
          simp [pushCitation, hid]
        rw [hpush]
        simp only [citedIds, List.map_cons, List.flatten_cons]
        rw [List.append_assoc, List.append_assoc]
        exact List.Perm.append_left _ List.perm_append_comm
      · have hpush : pushCitation (s :: ss) m cid = s :: pushCitation ss m cid := by
          simp [pushCitation, hid]
        rw [hpush]
        simp only [citedIds, List.map_cons, List.flatten_cons]
        rw [List.append_assoc]
        exact List.Perm.append_left _ ih

/-- Over the whole loop, the cited ids grow by exactly the ids
`idx+1, …, idx+|rs|`, one per processed result. -/
theorem prepLoop_citedIds (rs : List RetrievalResult) (idx : Nat)
    (cits : List Citation) (ctx : String) (srcs : List SourceDocument) :
    (citedIds (prepLoop rs idx cits ctx srcs).2.2).Perm
      (citedIds srcs ++ List.range' (idx + 1) rs.length) := by
  induction rs generalizing idx cits ctx srcs with
  | nil => simp [prepLoop]
  | cons r rs ih =>
      rw [prepLoop]
      refine (ih _ _ _ _).trans ?_
      refine (List.Perm.append_right (List.range' (idx + 1 + 1) rs.length)
        (citedIds_pushCitation srcs r.chunk.metadata (idx + 1))).trans ?_
      rw [List.length_cons, List.range'_succ (idx + 1) rs.length 1]
      simp [List.append_assoc]

/-- `pushCitation` with the id of the result at rank `idx` preserves the
grouping invariant. -/
theorem pushCitation_citedDocOk (results : List RetrievalResult)
    (srcs : List SourceDocument) (idx : Nat) (r : RetrievalResult)
    (hr : results[idx]? = some r)
    (hsrcs : ∀ s ∈ srcs, citedDocOk results s) :
    ∀ s ∈ pushCitation srcs r.chunk.metadata (idx + 1), citedDocOk results s := by
  induction srcs with
  | nil =>
      intro s hs
      simp only [pushCitation, List.mem_singleton] at hs
      subst hs
      intro cid hcid
      simp only [List.mem_singleton] at hcid
      subst hcid
      exact ⟨by omega, r, by simpa using hr, rfl⟩
  | cons s0 ss ih =>
      intro s hs
      by_cases hid : s0.id = r.chunk.metadata.documentId
      · have hpush : pushCitation (s0 :: ss) r.chunk.metadata (idx + 1)
            = { s0 with relevantChunks := s0.relevantChunks ++ [idx + 1] } :: ss := by
          simp [pushCitation, hid]
        rw [hpush] at hs
        rcases List.mem_cons.mp hs with hhead | htail
        · subst hhead
          intro cid hcid
          rcases List.mem_append.mp hcid with hold | hnew
          · obtain ⟨h1, rr, hrr, hdoc⟩ := hsrcs s0 (List.mem_cons_self s0 ss) cid hold
            exact ⟨h1, rr, hrr, hdoc⟩
          · simp only [List.mem_singleton] at hnew
            subst hnew
            refine ⟨by omega, r, by simpa using hr, ?_⟩
            simpa using hid.symm
        · exact hsrcs s (List.mem_cons_of_mem s0 htail)
      · have hpush : pushCitation (s0 :: ss) r.chunk.metadata (idx + 1)
            = s0 :: pushCitation ss r.chunk.metadata (idx + 1) := by
          simp [pushCitation, hid]
        rw [hpush] at hs
        rcases List.mem_cons.mp hs with hhead | htail
        · subst hhead
          exact hsrcs s (List.mem_cons_self s ss)
        · exact ih (fun t ht => hsrcs t (List.mem_cons_of_mem s0 ht)) s htail

/-- Running the loop over the tail of `results` starting at rank `idx`
keeps every produced source document grouped correctly. -/
theorem prepLoop_citedDocOk (results : List RetrievalResult)
    (rs : List RetrievalResult) (idx : Nat) (cits : List Citation)
    (ctx : String) (srcs : List SourceDocument)
    (hrs : rs = results.drop idx)
    (hsrcs : ∀ s ∈ srcs, citedDocOk results s) :
    ∀ s ∈ (prepLoop rs idx cits ctx srcs).2.2, citedDocOk results s := by
  induction rs generalizing idx cits ctx srcs with
  | nil => simpa [prepLoop] using hsrcs
  | cons r rs ih =>
      rw [prepLoop]
      have hget : results[idx]? = some r := by
        have h0 : (results.drop idx)[0]? = some r := by rw [← hrs]; simp
        rwa [List.getElem?_drop, Nat.add_zero] at h0
      have htail : rs = results.drop (idx + 1) := by
        have : List.drop 1 (List.drop idx results) = List.drop (idx + 1) results := by
          rw [List.drop_drop]
        rw [← this, ← hrs, List.drop_one, List.tail_cons]
      exact ih (idx + 1) _ _ _ htail
        (pushCitation_citedDocOk results srcs idx r hget hsrcs)

end LLM

/-- C10: for every result list, `prepareContextWithCitations` produces
one citation per result with ids exactly `1..n` in rank order carrying
the result's content/source/section/position, a context text that is the
header followed by the `[i]`-tagged entries in the same order, and source
documents whose `relevantChunks` together hold each citation id exactly
once (a permutation of `1..n`), each id sitting in the source document
keyed by its result's `documentId`. -/
theorem C10_citation_partition (results : List RetrievalResult) :
    (LLM.prepareContextWithCitations results).2.1
      = results.enum.map (fun p => LLM.citationOf p.1 p.2)
    ∧ (LLM.prepareContextWithCitations results).1
      = "Context information:\n\n" ++ LLM.contextFrom results 0
    ∧ (LLM.citedIds (LLM.prepareContextWithCitations results).2.2).Perm
        (List.range' 1 results.length)
    ∧ ∀ s ∈ (LLM.prepareContextWithCitations results).2.2,
        LLM.citedDocOk results s := by
  refine ⟨?_, ?_, ?_, ?_⟩
  · rw [LLM.prepareContextWithCitations]
    simpa [List.enum] using LLM.prepLoop_citations results 0 [] "Context information:\n\n" []
  · rw [LLM.prepareContextWithCitations]
    exact LLM.prepLoop_context results 0 [] "Context information:\n\n" []
  · rw [LLM.prepareContextWithCitations]
    simpa [LLM.citedIds] using
      LLM.prepLoop_citedIds results 0 [] "Context information:\n\n" []
  · rw [LLM.prepareContextWithCitations]
    exact LLM.prepLoop_citedDocOk results results 0 [] "Context information:\n\n" []
      (by simp) (by simp)

namespace BgProc

/-!
`BackgroundProcessingService` of `src/lib/backgroundProcessing.ts`.

The job map is an insertion-ordered association list, the queue a list of
job ids.  `processQueue` shifts the queue head and hands exactly that job
to `processJob`; the stages `processJob` then runs (dedup filtering,
chunking, embedding, indexing — whose bodies call the other services) are
recorded in an `executed` log.  Because the stage bodies depend on
external services, a worker turn is parametrised by the stage list it
completes and the final mutation of the pulled job record; it can only
ever touch the job shifted off the queue, which is the code fact the
cancellation claim rests on.  `cleanupOldJobs` deletes map entries
(terminal jobs by age, any oldest entries past the history cap) and is
over-approximated by an arbitrary deletion predicate; it never touches
the queue or runs stages.
-/

/-- `JobStatus` enum. -/
inductive JobStatus where
  | pending | uploading | extracting | chunking | embedding | indexing
  | complete | failed | cancelled
deriving DecidableEq

/-- Processing stages of `processJob` named by the claim. -/
inductive Stage where
  | dedup | chunk | embed | index
deriving DecidableEq

/-- `ProcessingJob` (metadata counters and the result payload are carried
through unchanged by every transition relevant here and are omitted). -/
structure Job where
  id : String
  files : List DocCache.UploadedFile
  status : JobStatus
  progress : Int
  message : String
  startTime : Int
  endTime : Option Int := none
  error : Option String := none
deriving DecidableEq

/-- The orchestrator's mutable state plus the observation log of executed
stages. -/
structure OrchState where
  jobs : List (String × Job)
  queue : List String
  executed : List (String × Stage)
deriving DecidableEq

/-- `Map.prototype.get` on the job map. -/
def jobsGet? (k : String) : List (String × Job) → Option Job
  | [] => none
  | (k', v) :: m => if k' = k then some v else jobsGet? k m

/-- In-place mutation of the job object stored under a key. -/
def updateJob (k : String) (f : Job → Job) : List (String × Job) → List (String × Job)
  | [] => []
  | (k', v) :: m => if k' = k then (k', f v) :: m else (k', v) :: updateJob k f m

/-- The fresh job record built by `createJob`. -/
def newJob (id : String) (files : List DocCache.UploadedFile) (now : Int) : Job :=
  { id := id, files := files, status := JobStatus.pending, progress := 0,
    message := "Job created, waiting to start...", startTime := now }

/-- `createJob`: store the job under its (fresh uuid) id and push the id
onto the queue.  The immediate `processQueue()` attempt is a separate
`pullRun` event, since its guards may bounce it. -/
def createJob (st : OrchState) (id : String)
    (files : List DocCache.UploadedFile) (now : Int) : OrchState :=
  { st with jobs := st.jobs ++ [(id, newJob id files now)],
            queue := st.queue ++ [id] }

/-- `cancelJob`: refuse for missing or COMPLETE/FAILED jobs; otherwise
mark CANCELLED (message, end time, progress reset to 0) and splice the
first queue occurrence out (`indexOf`/`splice`, a no-op when absent). -/
def cancelJob (st : OrchState) (id : String) (now : Int) : OrchState × Bool :=
  match jobsGet? id st.jobs with
  | none => (st, false)
  | some j =>
      if j.status = JobStatus.complete ∨ j.status = JobStatus.failed then
        (st, false)
      else
        ({ st with
            jobs := updateJob id (fun jb =>
              { jb with status := JobStatus.cancelled,
                        message := "Job cancelled by user",
                        endTime := some now, progress := 0 }) st.jobs,
            queue := st.queue.erase id }, true)

/-- One completed worker turn of `processQueue`: shift the queue head
(nothing to do on an empty queue, drop unknown ids), then run
`processJob` to its end for exactly that job — recording the stages it
executed and applying its final mutation of the job record. -/
def pullRun (st : OrchState) (stages : List Stage) (finish : Job → Job) : OrchState :=
  match st.queue with
  | [] => st
  | j :: rest =>
      match jobsGet? j st.jobs with
      | none => { st with queue := rest }
      | some _ =>
          { jobs := updateJob j finish st.jobs,
            queue := rest,
            executed := st.executed ++ stages.map (fun s => (j, s)) }

/-- `cleanupOldJobs`, over-approximated: delete an arbitrary set of map
entries (the code deletes aged-out terminal jobs and, past the history
cap, the oldest entries); the queue and the execution log are untouched. -/
def cleanup (st : OrchState) (keep : String → Bool) : OrchState :=
  { st with jobs := st.jobs.filter (fun p => keep p.1) }

/-- Orchestrator events occurring after a point of observation. -/
inductive Event where
  | create (id : String) (files : List DocCache.UploadedFile) (now : Int)
  | cancel (id : String) (now : Int)
  | pullRun (stages : List Stage) (finish : Job → Job)
  | cleanup (keep : String → Bool)

/-- Event application. -/
def stepEv (st : OrchState) : Event → OrchState
  | Event.create id files now => createJob st id files now
  | Event.cancel id now => (cancelJob st id now).1
  | Event.pullRun stages finish => pullRun st stages finish
  | Event.cleanup keep => cleanup st keep

/-- A whole trace of events. -/
def runEvents (st : OrchState) (evs : List Event) : OrchState :=
  evs.foldl stepEv st

/-- An event never enqueues `jobId`: either it is not a `create`, or it
creates a different (fresh uuid) id. -/
def Event.avoids (e : Event) (jobId : String) : Prop :=
  match e with
  | Event.create id _ _ => id ≠ jobId
  | _ => True

/-- Single-event preservation: if `jobId` is off the queue and the event
does not create it, it stays off the queue and gains no executed stage. -/
theorem stepEv_preserves (st : OrchState) (e : Event) (jobId : String)
    (hq : jobId ∉ st.queue) (he : e.avoids jobId) :
    jobId ∉ (stepEv st e).queue
    ∧ ((stepEv st e).executed.filter (fun p => p.1 = jobId)
        = st.executed.filter (fun p => p.1 = jobId)) := by
  cases e with
  | create id files now =>
      refine ⟨?_, rfl⟩
      simp only [stepEv, createJob, List.mem_append, List.mem_singleton]
      rintro (hmem | hid)
      · exact hq hmem
      · exact he hid.symm
  | cancel id now =>
      constructor
      · simp only [stepEv, cancelJob]
        cases jobsGet? id st.jobs with
        | none => exact hq
        | some j =>
            by_cases hterm : j.status = JobStatus.complete ∨ j.status = JobStatus.failed
            · simpa [hterm] using hq
            · simp only [hterm, if_neg, not_false_eq_true]
              intro hmem
              exact hq (List.erase_subset _ _ hmem)
      · simp only [stepEv, cancelJob]
        cases jobsGet? id st.jobs with
        | none => rfl
        | some j =>
            by_cases hterm : j.status = JobStatus.complete ∨ j.status = JobStatus.failed
            · simp [hterm]
            · simp [hterm]
  | pullRun stages finish =>
      cases hqueue : st.queue with
      | nil => simp [stepEv, pullRun, hqueue, hq, hqueue ▸ hq]
      | cons j rest =>
          have hjne : j ≠ jobId := by
            intro hj
            exact hq (hqueue ▸ (hj ▸ List.mem_cons_self j rest))
          have hrest : jobId ∉ rest := fun hmem =>
            hq (hqueue ▸ List.mem_cons_of_mem j hmem)
          constructor
          · simp only [stepEv, pullRun, hqueue]
            cases jobsGet? j st.jobs with
            | none => exact hrest
            | some job => exact hrest
          · simp only [stepEv, pullRun, hqueue]
            cases jobsGet? j st.jobs with
            | none => rfl
            | some job =>
                have hnil : (stages.map (fun s => (j, s))).filter
                    (fun p => decide (p.1 = jobId)) = [] := by
                  rw [List.filter_eq_nil_iff]
                  intro p hp
                  obtain ⟨s, _, hps⟩ := List.mem_map.mp hp
                  simp [← hps, hjne]
                rw [List.filter_append, hnil, List.append_nil]
  | cleanup keep => exact ⟨hq, rfl⟩

/-- Trace preservation: off-queue with only avoiding events stays
off-queue, with the executed log for the job unchanged. -/
theorem runEvents_preserves (evs : List Event) (st : OrchState) (jobId : String)
    (hq : jobId ∉ st.queue) (he : ∀ e ∈ evs, e.avoids jobId) :
    jobId ∉ (runEvents st evs).queue
    ∧ ((runEvents st evs).executed.filter (fun p => p.1 = jobId)
        = st.executed.filter (fun p => p.1 = jobId)) := by
  induction evs generalizing st with
  | nil => exact ⟨hq, rfl⟩
  | cons e evs ih =>
      have hstep := stepEv_preserves st e jobId hq (he e (List.mem_cons_self e evs))
      have hrec := ih (stepEv st e) hstep.1
        (fun e' he' => he e' (List.mem_cons_of_mem e he'))
      exact ⟨hrec.1, hrec.2.trans hstep.2⟩

end BgProc

namespace BgProc

/-- Reading a job back after mutating it in place. -/
theorem jobsGet?_updateJob_self (k : String) (f : Job → Job)
    (m : List (String × Job)) :
    jobsGet? k (updateJob k f m) = (jobsGet? k m).map f := by
  induction m with
  | nil => simp [updateJob, jobsGet?]
  | cons p m ih =>
      by_cases hk : p.1 = k
      · simp [updateJob, jobsGet?, hk]
      · simpa [updateJob, jobsGet?, hk] using ih

/-- Concrete pending job used in concrete evaluations. -/
def sampleJob : Job := newJob "a" [] 0

/-- Concrete orchestrator state: one pending job, queued, nothing run. -/
def sampleState : OrchState :=
  { jobs := [("a", sampleJob)], queue := ["a"], executed := [] }

/-- Concrete post-cancellation trace: another job is created and the
worker loop turns over twice, then a cleanup sweep runs. -/
def sampleTrace : List Event :=
  [Event.create "b" [] 5,
   Event.pullRun [Stage.dedup, Stage.chunk, Stage.embed, Stage.index] (fun j => j),
   Event.pullRun [] (fun j => j),
   Event.cleanup (fun _ => true)]

end BgProc

/-- C9: cancelling a PENDING job that sits (at most once, as the fresh
uuid queue discipline guarantees) in the queue succeeds, marks the job
CANCELLED (with reset progress and an end time), removes its id from the
queue, and afterwards — across any event trace whose job creations use
fresh ids — the worker loop never executes any processing stage (dedup,
chunking, embedding, indexing) for that job: its executed-stage log never
grows. -/
theorem C9_cancel_pending_no_stages (st : BgProc.OrchState) (jobId : String)
    (now : Int) (job : BgProc.Job)
    (hjob : BgProc.jobsGet? jobId st.jobs = some job)
    (hpend : job.status = BgProc.JobStatus.pending)
    (hcount : st.queue.count jobId ≤ 1)
    (evs : List BgProc.Event)
    (hfresh : ∀ e ∈ evs, e.avoids jobId) :
    (BgProc.cancelJob st jobId now).2 = true
    ∧ BgProc.jobsGet? jobId (BgProc.cancelJob st jobId now).1.jobs
        = some { job with
                  status := BgProc.JobStatus.cancelled,
                  message := "Job cancelled by user",
                  endTime := some now, progress := 0 }
    ∧ jobId ∉ (BgProc.cancelJob st jobId now).1.queue
    ∧ ((BgProc.runEvents (BgProc.cancelJob st jobId now).1 evs).executed.filter
          (fun p => p.1 = jobId)
        = st.executed.filter (fun p => p.1 = jobId)) := by
  have hterm : ¬(job.status = BgProc.JobStatus.complete
      ∨ job.status = BgProc.JobStatus.failed) := by
    rw [hpend]
    rintro (hc | hc) <;> exact BgProc.JobStatus.noConfusion hc
  have hcancel : BgProc.cancelJob st jobId now
      = ({ st with
            jobs := BgProc.updateJob jobId (fun jb =>
              { jb with status := BgProc.JobStatus.cancelled,
                        message := "Job cancelled by user",
                        endTime := some now, progress := 0 }) st.jobs,
            queue := st.queue.erase jobId }, true) := by
    simp [BgProc.cancelJob, hjob, hterm]
  have hnotq : jobId ∉ st.queue.erase jobId := by
    intro hmem
    have hpos : 0 < (st.queue.erase jobId).count jobId :=
      List.count_pos_iff.mpr hmem
    rw [List.count_erase_self] at hpos
    omega
  refine ⟨by rw [hcancel], ?_, ?_, ?_⟩
  · rw [hcancel]
    simp [BgProc.jobsGet?_updateJob_self, hjob]
  · rw [hcancel]
    exact hnotq
  · have hpres := BgProc.runEvents_preserves evs (BgProc.cancelJob st jobId now).1
      jobId (by rw [hcancel]; exact hnotq) hfresh
    rw [hpres.2, hcancel]

/-- C9 witness: the concrete one-job state, cancel at time 9, then the
concrete trace; the job reads back CANCELLED, is off the queue, and its
stage log stays empty. -/
theorem C9_cancel_pending_no_stages_witness :
    (BgProc.cancelJob BgProc.sampleState "a" 9).2 = true
    ∧ BgProc.jobsGet? "a" (BgProc.cancelJob BgProc.sampleState "a" 9).1.jobs
        = some { BgProc.sampleJob with
                  status := BgProc.JobStatus.cancelled,
                  message := "Job cancelled by user",
                  endTime := some 9, progress := 0 }
    ∧ "a" ∉ (BgProc.cancelJob BgProc.sampleState "a" 9).1.queue
    ∧ ((BgProc.runEvents (BgProc.cancelJob BgProc.sampleState "a" 9).1
          BgProc.sampleTrace).executed.filter (fun p => p.1 = "a")
        = BgProc.sampleState.executed.filter (fun p => p.1 = "a")) :=
  C9_cancel_pending_no_stages BgProc.sampleState "a" 9 BgProc.sampleJob
    (by decide) (by decide) (by decide) BgProc.sampleTrace
    (by
      intro e he
      simp only [BgProc.sampleTrace, List.mem_cons, List.not_mem_nil, or_false] at he
      rcases he with rfl | rfl | rfl | rfl
      · intro hcon
        simp at hcon
      · trivial
      · trivial
      · trivial)

namespace TextProc

/-!
`TextProcessor` of `src/lib/textProcessorOptimized.ts`.

Text is a list of UTF-16 code units (`Str`), indexed like a JS string.
`countTokens` first tries the external tiktoken encoder, so the token
counter is a parameter `tok : Str → Nat` of every function that counts;
the in-code fallback approximation (`words × 1.3 + punctuation × 0.5`
vs. `length / 4`, ceiling, take the max) is embedded as `approxTokens`
and used for concrete evaluations (it is the code path taken whenever
tiktoken fails to initialise).  The `while` loop of
`createTokenBasedChunks` and the `matchAll` scan are written with an
explicit fuel argument; the fuel `text.length + 1` is proven sufficient
(claim C5).
-/

/-- JS string contents. -/
abbrev Str := List Char

/-- `config.chunking.chunkSize`. -/
def chunkSize : Nat := 300

/-- `config.chunking.chunkOverlap`. -/
def chunkOverlap : Nat := 30

/-- `config.chunking.minChunkLength` (a token floor). -/
def minChunkLength : Nat := 30

/-- `config.chunking.maxChunksPerDocument`. -/
def maxChunksPerDocument : Nat := 500

/-- `config.chunking.separators`. -/
def separators : List Str :=
  ["\n\n", "\n", ". ", "! ", "? ", "; ", ", ", " ", ""].map String.toList

/-- `tokensToChars`: `Math.floor(tokens * 3.5)`. -/
def tokensToChars (tokens : Nat) : Nat := 7 * tokens / 2

/-- Maximal non-whitespace runs of a string, i.e.
`text.split(/\s+/).filter(w => w.length > 0).length`; the boolean tracks
whether the scan is inside a word. -/
def wordsGo : Str → Bool → Nat
  | [], _ => 0
  | c :: cs, inWord =>
      if jsWhitespace c then wordsGo cs false
      else (if inWord then 0 else 1) + wordsGo cs true

/-- The punctuation class `[.,;:!?()\x5b\x5d\x7b\x7d"'\x60]` of the
fallback token counter (brace, quote, apostrophe and backtick written by
code point). -/
def approxPunct (c : Char) : Bool :=
  c = '.' || c = ',' || c = ';' || c = ':' || c = '!' || c = '?' ||
  c = '(' || c = ')' || c = '[' || c = ']' ||
  c = Char.ofNat 123 || c = Char.ofNat 125 ||
  c = Char.ofNat 34 || c = Char.ofNat 39 || c = Char.ofNat 96

/-- The fallback branch of `countTokens`:
`max(ceil(words·1.3 + punctuation·0.5), ceil(length/4))`. -/
def approxTokens (s : Str) : Nat :=
  let words := wordsGo s false
  let punctuation := (s.filter approxPunct).length
  let approximateTokens := (13 * words + 5 * punctuation + 9) / 10
  let charBasedTokens := (s.length + 3) / 4
  max approximateTokens charBasedTokens

/-- `text.slice(a, b)` for `0 ≤ a, b ≤ length`. -/
def sliceList (s : Str) (a b : Nat) : Str := (s.take b).drop a

/-- JS `String.prototype.lastIndexOf(sep, fromIdx)`: the largest start
position `≤ min(fromIdx, length)` where `sep` occurs (`none` for JS
`-1`); an empty needle is found at `min(fromIdx, length)`. -/
def jsLastIndexOf (text sep : Str) (fromIdx : Nat) : Option Nat :=
  ((List.range (min fromIdx text.length + 1)).filter
    (fun j => sep.isPrefixOf (text.drop j))).getLast?

/-- The separator loop of `findBestSplitPoint`: first separator whose
last occurrence `j` satisfies `start < j < end` wins, returning
`j + sep.length`. -/
def sepScan (text : Str) (start e : Nat) : List Str → Option Nat
  | [] => none
  | sep :: rest =>
      match jsLastIndexOf text sep e with
      | some j =>
          if start < j ∧ j < e then some (j + sep.length)
          else sepScan text start e rest
      | none => sepScan text start e rest

/-- The word-boundary fallback loop `for (i = end; i > start; i--)`:
the largest `i ∈ (start, end]` holding a space or newline (`text[i]` is
`undefined` past the end and never matches). -/
def wordScan (text : Str) (start e : Nat) : Option Nat :=
  ((List.range (e + 1)).filter
    (fun i => decide (start < i) &&
      (text[i]? == some ' ' || text[i]? == some '\n'))).getLast?

/-- `findBestSplitPoint(text, start, end, separators)`. -/
def findBestSplitPoint (text : Str) (start e : Nat) (seps : List Str) : Nat :=
  let e := min e text.length
  match sepScan text start e seps with
  | some r => r
  | none =>
      match wordScan text start e with
      | some i => i
      | none => e

/-- A produced chunk: content plus the metadata fields the chunker
computes (`chunkIndex`, `totalChunks`, `tokens`,
`position = baseMetadata.position + chunkIndex`); the textual base
metadata (source, title, section, documentId, timestamp, fileType) is
copied through verbatim and not repeated here. -/
structure TPChunk where
  content : Str
  chunkIndex : Nat
  totalChunks : Nat
  tokens : Nat
  position : Nat
deriving DecidableEq

/-- `addChunk`: `totalChunks` starts at 0 and is backfilled later. -/
def mkChunk (basePos chunkIndex : Nat) (content : Str) (tokens : Nat) : TPChunk :=
  { content := content, chunkIndex := chunkIndex, totalChunks := 0,
    tokens := tokens, position := basePos + chunkIndex }

/-- The `while (currentPosition < textLength && chunks.length <
maxChunksPerDocument)` loop of `createTokenBasedChunks`, with explicit
fuel (`none` = fuel ran out with the guard still true, proven impossible
for fuel `text.length + 1`).  Skip branches move `currentPosition` to the
split point; an accepted chunk advances it to
`max(currentPosition + 1, chunkEnd − overlapChars)`; an over-large chunk
recomputes the split with the unclamped target end before accepting. -/
def chunkLoop (tok : Str → Nat) (text : Str) (basePos : Nat) :
    Nat → Nat → Nat → List TPChunk → Option (List TPChunk)
  | 0, pos, _, acc =>
    if pos < text.length ∧ acc.length < maxChunksPerDocument then none
    else some acc
  | fuel + 1, pos, chunkIndex, acc =>
    if pos < text.length ∧ acc.length < maxChunksPerDocument then
          let estimatedEnd := min (pos + tokensToChars chunkSize) text.length
          let chunkEnd := findBestSplitPoint text pos estimatedEnd separators
          let chunkText := jsTrimList (sliceList text pos chunkEnd)
          if chunkText.length = 0 then
            chunkLoop tok text basePos fuel chunkEnd chunkIndex acc
          else
            let actualTokens := tok chunkText
            if actualTokens < minChunkLength then
              chunkLoop tok text basePos fuel chunkEnd chunkIndex acc
            else
              if actualTokens > chunkSize * 3 / 2 then
                let adjustedEnd := pos + tokensToChars chunkSize
                let chunkEnd2 := findBestSplitPoint text pos adjustedEnd separators
                let adjustedText := jsTrimList (sliceList text pos chunkEnd2)
                let adjustedTokens := tok adjustedText
                let added :=
                  if minChunkLength ≤ adjustedTokens ∧ 0 < adjustedText.length then
                    mkChunk basePos chunkIndex adjustedText adjustedTokens
                  else
                    mkChunk basePos chunkIndex chunkText actualTokens
                chunkLoop tok text basePos fuel
                  (max (pos + 1) (chunkEnd2 - tokensToChars chunkOverlap))
                  (chunkIndex + 1) (acc ++ [added])
              else
                chunkLoop tok text basePos fuel
                  (max (pos + 1) (chunkEnd - tokensToChars chunkOverlap))
                  (chunkIndex + 1) (acc ++ [mkChunk basePos chunkIndex chunkText actualTokens])
    else some acc

/-- `createTokenBasedChunks(text, baseMetadata, startingIndex)`: run the
loop (its fuel never runs out) and backfill every `totalChunks` with the
final count. -/
def createTokenBasedChunks (tok : Str → Nat) (text : Str) (basePos : Nat)
    (startingIndex : Nat) : List TPChunk :=
  match chunkLoop tok text basePos (text.length + 1) 0 startingIndex [] with
  | some chunks => chunks.map (fun c => { c with totalChunks := chunks.length })
  | none => []

end TextProc

namespace TextProc

/-- `replace(/\r\n/g, '\n')`: left-to-right, non-overlapping. -/
def cleanCRLF : Str → Str
  | '\r' :: '\n' :: rest => '\n' :: cleanCRLF rest
  | c :: rest => c :: cleanCRLF rest
  | [] => []

/-- `replace(/\r/g, '\n')`. -/
def crToLf (s : Str) : Str := s.map (fun c => if c = '\r' then '\n' else c)

/-- State machine for `replace(/\n{3,}/g, '\n\n')`: each maximal newline
run of length ≥ 3 becomes two newlines. -/
def collapseNlGo : Str → Nat → Str
  | [], pending => if pending ≥ 3 then ['\n', '\n'] else List.replicate pending '\n'
  | c :: rest, pending =>
      if c = '\n' then collapseNlGo rest (pending + 1)
      else (if pending ≥ 3 then ['\n', '\n'] else List.replicate pending '\n')
        ++ c :: collapseNlGo rest 0

/-- `replace(/\n{3,}/g, '\n\n')`. -/
def collapseNewlines (s : Str) : Str := collapseNlGo s 0

/-- State machine for `replace(/[ \t]+/g, ' ')`: each maximal space/tab
run becomes one space. -/
def collapseSpacesGo : Str → Bool → Str
  | [], _ => []
  | c :: rest, inRun =>
      if c = ' ' || c = '\t' then
        (if inRun then [] else [' ']) ++ collapseSpacesGo rest true
      else c :: collapseSpacesGo rest false

/-- `replace(/[ \t]+/g, ' ')`. -/
def collapseSpaces (s : Str) : Str := collapseSpacesGo s false

/-- `replace(/ /g, ' ')`. -/
def nbspToSpace (s : Str) : Str :=
  s.map (fun c => if c = Char.ofNat 160 then ' ' else c)

/-- `cleanText`: the five replacements in source order, then `trim`. -/
def cleanTextList (s : Str) : Str :=
  jsTrimList (nbspToSpace (collapseSpaces (collapseNewlines (crToLf (cleanCRLF s)))))

/-- End of the maximal run of characters satisfying `p` from `i`. -/
def runEnd (p : Char → Bool) (text : Str) (i : Nat) : Nat :=
  i + ((text.drop i).takeWhile p).length

/-- `^` with the `m` flag: position 0 or right after a newline. -/
def lineStart (text : Str) (i : Nat) : Bool :=
  i = 0 || text[i - 1]? == some '\n'

/-- Greedy match of `\s+(.+)$` at position `j` (with backtracking into
the whitespace run when it reaches the end of the string), returning the
capture and the match end.  `\s+` first takes the maximal whitespace run
`[j, w)`; `(.+)$` then matches at `w` when a character (necessarily not a
newline) remains, else at the last non-newline position after `j`. -/
def matchWsCapture (text : Str) (j : Nat) : Option (Str × Nat) :=
  let w := runEnd jsWhitespace text j
  if w = j then none
  else if w < text.length then
    let e := runEnd (fun c => !(c = '\n')) text w
    some (sliceList text w e, e)
  else
    match ((List.range text.length).filter
        (fun m => decide (j < m) && !(text[m]? == some '\n'))).getLast? with
    | some m =>
        let e := runEnd (fun c => !(c = '\n')) text m
        some (sliceList text m e, e)
    | none => none

/-- One match attempt of `/^#{1,6}\s+(.+)$/` at a line start: one to six
`#` (a longer run backtracks onto a `#` and fails), then `\s+(.+)$`. -/
def tryMarkdown (text : Str) (i : Nat) : Option (Str × Nat) :=
  let r := runEnd (fun c => c = '#') text i
  if 1 ≤ r - i ∧ r - i ≤ 6 then matchWsCapture text r else none

/-- One match attempt of `/^\d+\.\s+(.+)$/` at a line start. -/
def tryNumbered (text : Str) (i : Nat) : Option (Str × Nat) :=
  let r := runEnd Char.isDigit text i
  if i < r ∧ text[r]? = some '.' then matchWsCapture text (r + 1) else none

/-- One match attempt of `/^(.+)\n=+$/` (or `-+`) at a line start: a
non-empty line, a newline, then a non-empty line consisting solely of the
marker (a non-marker, non-line-end continuation fails for every
backtracking split). -/
def tryUnderline (mark : Char) (text : Str) (i : Nat) : Option (Str × Nat) :=
  let e := runEnd (fun c => !(c = '\n')) text i
  if i < e ∧ text[e]? = some '\n' then
    let f := runEnd (fun c => c = mark) text (e + 1)
    if e + 1 < f ∧ (f = text.length ∨ text[f]? = some '\n') then
      some (sliceList text i e, f)
    else none
  else none

/-- The first line-start position `≥ cur` where the pattern matches,
with its capture and match end (`matchAll` resumes searching at
`lastIndex`). -/
def findMatchFrom (tryPat : Str → Nat → Option (Str × Nat)) (text : Str)
    (cur : Nat) : Option (Nat × Str × Nat) :=
  ((List.range (text.length + 1)).drop cur).findSome? (fun i =>
    if lineStart text i then (tryPat text i).map (fun p => (i, p.1, p.2)) else none)

/-- The `matchAll` loop (fuelled; every match ends past its start, so
`text.length + 1` rounds always suffice). -/
def scanGo (tryPat : Str → Nat → Option (Str × Nat)) (text : Str) :
    Nat → Nat → List (Nat × Str)
  | 0, _ => []
  | fuel + 1, cur =>
      match findMatchFrom tryPat text cur with
      | none => []
      | some (i, cap, e) => (i, cap) :: scanGo tryPat text fuel (max e (i + 1))

/-- `Array.from(content.matchAll(pattern))` as `(index, capture)` pairs. -/
def scanMatches (tryPat : Str → Nat → Option (Str × Nat)) (text : Str) :
    List (Nat × Str) :=
  scanGo tryPat text (text.length + 1) 0

/-- A `{title, content, position}` section record. -/
structure SectionRec where
  title : Str
  content : Str
  position : Nat
deriving DecidableEq

/-- `extractTitle(fileName)`: strip a final `.ext` (a dot followed by one
or more characters none of which is `/` or `.`), then map `-`/`_` to
spaces. -/
def extractTitle (fileName : Str) : Str :=
  let base :=
    match ((List.range fileName.length).filter
        (fun k => fileName[k]? == some '.')).getLast? with
    | some k =>
        if k + 1 < fileName.length ∧
            ∀ m ∈ List.range fileName.length, k < m →
              ¬(fileName[m]? = some '/' ∨ fileName[m]? = some '.') then
          fileName.take k
        else fileName
    | none => fileName
  base.map (fun c => if c = '-' || c = '_' then ' ' else c)

/-- The section assembly loop: section `i` spans from its match index to
the next match index (or the end), trimmed; an empty capture falls back
to `Section i+1`. -/
def buildSections (content : Str) : List (Nat × Str) → Nat → List SectionRec
  | [], _ => []
  | (start, cap) :: rest, i =>
      let endIdx := match rest.head? with
        | some p => p.1
        | none => content.length
      { title := if cap.length = 0 then ("Section " ++ toString (i + 1)).toList else cap,
        content := jsTrimList (sliceList content start endIdx),
        position := i } :: buildSections content rest (i + 1)

/-- `extractSections(content, fileName)`: try the four header patterns,
keep the one with strictly the most matches (ties keep the earlier
pattern), fall back to a single whole-document section. -/
def extractSections (content : Str) (fileName : Str) : List SectionRec :=
  let bestMatches :=
    [scanMatches tryMarkdown content,
     scanMatches (tryUnderline '=') content,
     scanMatches (tryUnderline '-') content,
     scanMatches tryNumbered content].foldl
      (fun acc m => if acc.length < m.length then m else acc) []
  if bestMatches.isEmpty then
    [{ title := extractTitle fileName, content := content, position := 0 }]
  else
    buildSections content bestMatches 0

/-- The per-section loop of `processFile`, threading `globalChunkIndex`. -/
def processSections (tok : Str → Nat) : List SectionRec → Nat → List TPChunk
  | [], _ => []
  | sec :: rest, gidx =>
      let sectionChunks := createTokenBasedChunks tok sec.content sec.position gidx
      sectionChunks ++ processSections tok rest (gidx + sectionChunks.length)

/-- `TextProcessor.processFile` (the uuid, timestamp and name-derived
metadata are copied through verbatim; content was extracted at upload
time). -/
def processFile (tok : Str → Nat) (fileName fileContent : Str) : List TPChunk :=
  processSections tok (extractSections (cleanTextList fileContent) fileName) 0

/-- Concrete two-section markdown document: each section is a `# X`
header plus a 56-bang line, which the fallback tokenizer chunks into
exactly one ≥30-token chunk. -/
def sampleTwoSections : Str :=
  "# A\n".toList ++ List.replicate 56 '!' ++ "\n# B\n".toList ++ List.replicate 56 '!'

/-- Concrete single-section variant of the same document. -/
def sampleOneSection : Str :=
  "# A\n".toList ++ List.replicate 56 '!'

end TextProc

namespace TextProc

/-- A `getLast?` hit is a member. -/
theorem mem_of_getLast?_eq {α : Type} {l : List α} {a : α}
    (h : l.getLast? = some a) : a ∈ l := by
  have hx : a ∈ l.getLast? := by simp [Option.mem_def, h]
  obtain ⟨hne, heq⟩ := List.mem_getLast?_eq_getLast hx
  rw [heq]
  exact List.getLast_mem hne

/-- A separator hit of `findBestSplitPoint` lies strictly past `start`. -/
theorem sepScan_gt (text : Str) (start e : Nat) :
    ∀ seps r, sepScan text start e seps = some r → start < r := by
  intro seps
  induction seps with
  | nil => intro r h; exact absurd h (by simp [sepScan])
  | cons sep rest ih =>
      intro r h
      rw [sepScan] at h
      cases hj : jsLastIndexOf text sep e with
      | none => rw [hj] at h; exact ih r h
      | some j =>
          rw [hj] at h
          dsimp only at h
          by_cases hcond : start < j ∧ j < e
          · rw [if_pos hcond] at h
            cases h
            omega
          · rw [if_neg hcond] at h
            exact ih r h

/-- A word-boundary hit of `findBestSplitPoint` lies strictly past
`start`. -/
theorem wordScan_gt (text : Str) (start e r : Nat)
    (h : wordScan text start e = some r) : start < r := by
  have hmem := mem_of_getLast?_eq h
  have hp := List.of_mem_filter hmem
  simp only [Bool.and_eq_true, decide_eq_true_eq] at hp
  exact hp.1

/-- Every split point returned by `findBestSplitPoint` lies strictly past
`start` as soon as the (clamped) window is non-empty. -/
theorem findBestSplitPoint_gt (text : Str) (start e : Nat) (seps : List Str)
    (h : start < min e text.length) :
    start < findBestSplitPoint text start e seps := by
  rw [findBestSplitPoint]
  cases hs : sepScan text start (min e text.length) seps with
  | some r => exact sepScan_gt text start (min e text.length) seps r hs
  | none =>
      cases hw : wordScan text start (min e text.length) with
      | some i => exact wordScan_gt text start (min e text.length) i hw
      | none => exact h

/-- The window of one loop iteration is non-empty while the guard holds:
`tokensToChars chunkSize = 1050 > 0`. -/
theorem chunk_window_nonempty (text : Str) (pos : Nat) (h : pos < text.length) :
    pos < min (min (pos + tokensToChars chunkSize) text.length) text.length := by
  have : tokensToChars chunkSize = 1050 := by decide
  omega

/-- Fuel sufficiency: with more fuel than remaining characters the loop
always reaches its guard-exit, never the fuel-exit. -/
theorem chunkLoop_fuel_sufficient (tok : Str → Nat) (text : Str) (basePos : Nat) :
    ∀ fuel pos chunkIndex acc, text.length - pos < fuel →
      chunkLoop tok text basePos fuel pos chunkIndex acc ≠ none := by
  intro fuel
  induction fuel with
  | zero => intro pos chunkIndex acc hfuel; omega
  | succ fuel ih =>
      intro pos chunkIndex acc hfuel
      rw [chunkLoop]
      by_cases hguard : pos < text.length ∧ acc.length < maxChunksPerDocument
      · rw [if_pos hguard]
        have hce : pos < findBestSplitPoint text pos
            (min (pos + tokensToChars chunkSize) text.length) separators :=
          findBestSplitPoint_gt text pos _ separators
            (chunk_window_nonempty text pos hguard.1)
        have hce2 : pos < findBestSplitPoint text pos
            (pos + tokensToChars chunkSize) separators :=
          findBestSplitPoint_gt text pos _ separators (by
            have : tokensToChars chunkSize = 1050 := by decide
            omega)
        dsimp only
        split
        · exact ih _ chunkIndex acc (by omega)
        · split
          · exact ih _ chunkIndex acc (by omega)
          · split
            · exact ih _ (chunkIndex + 1) _ (by omega)
            · exact ih _ (chunkIndex + 1) _ (by omega)
      · rw [if_neg hguard]
        exact Option.some_ne_none acc

end TextProc

/-- C5: while the loop guard holds, (a) the split point of the iteration
lies strictly past the current window start (covering both skip branches,
which jump to the split point, and the re-split of an over-large chunk),
(b) after accepting a chunk the next start `max(start+1, end −
overlapChars)` also advances strictly, and (c) consequently the loop
behind `createTokenBasedChunks`, given its fuel `text.length + 1`, never
exhausts it on any input: the chunker terminates. -/
theorem C5_chunking_advances_and_terminates (tok : TextProc.Str → Nat)
    (text : TextProc.Str) (basePos : Nat) :
    (∀ pos, pos < text.length →
      pos < TextProc.findBestSplitPoint text pos
        (min (pos + TextProc.tokensToChars TextProc.chunkSize) text.length)
        TextProc.separators
      ∧ pos < TextProc.findBestSplitPoint text pos
        (pos + TextProc.tokensToChars TextProc.chunkSize) TextProc.separators)
    ∧ (∀ pos chunkEnd, pos < max (pos + 1)
        (chunkEnd - TextProc.tokensToChars TextProc.chunkOverlap))
    ∧ (∀ startingIndex,
        TextProc.chunkLoop tok text basePos (text.length + 1) 0 startingIndex []
          ≠ none) := by
  refine ⟨fun pos hpos => ⟨?_, ?_⟩, fun pos chunkEnd => ?_, fun startingIndex => ?_⟩
  · exact TextProc.findBestSplitPoint_gt text pos _ TextProc.separators
      (TextProc.chunk_window_nonempty text pos hpos)
  · refine TextProc.findBestSplitPoint_gt text pos _ TextProc.separators ?_
    have : TextProc.tokensToChars TextProc.chunkSize = 1050 := by decide
    omega
  · omega
  · exact TextProc.chunkLoop_fuel_sufficient tok text basePos (text.length + 1) 0
      startingIndex [] (by omega)

/-- C5 witness: the concrete two-section document at window start 0
(strictly advancing split points) and its chunk loop returning a value. -/
theorem C5_chunking_advances_and_terminates_witness :
    (0 < TextProc.findBestSplitPoint TextProc.sampleTwoSections 0
        (min (0 + TextProc.tokensToChars TextProc.chunkSize)
          TextProc.sampleTwoSections.length) TextProc.separators
      ∧ 0 < TextProc.findBestSplitPoint TextProc.sampleTwoSections 0
        (0 + TextProc.tokensToChars TextProc.chunkSize) TextProc.separators)
    ∧ 0 < max (0 + 1) (4 - TextProc.tokensToChars TextProc.chunkOverlap)
    ∧ TextProc.chunkLoop TextProc.approxTokens TextProc.sampleTwoSections 0
        (TextProc.sampleTwoSections.length + 1) 0 0 [] ≠ none :=
  ⟨(C5_chunking_advances_and_terminates TextProc.approxTokens
      TextProc.sampleTwoSections 0).1 0 (by decide),
   (C5_chunking_advances_and_terminates TextProc.approxTokens
      TextProc.sampleTwoSections 0).2.1 0 4,
   (C5_chunking_advances_and_terminates TextProc.approxTokens
      TextProc.sampleTwoSections 0).2.2 0⟩

namespace TextProc

/-- The loop appends chunks whose `chunkIndex` continues the counter
contiguously: a successful run extends `acc` by a tail indexed
`chunkIndex, chunkIndex+1, …`. -/
theorem chunkLoop_indexes (tok : Str → Nat) (text : Str) (basePos : Nat) :
    ∀ fuel pos chunkIndex acc chunks,
      chunkLoop tok text basePos fuel pos chunkIndex acc = some chunks →
      ∃ tail, chunks = acc ++ tail
        ∧ tail.map (fun c => c.chunkIndex) = List.range' chunkIndex tail.length := by
  intro fuel
  induction fuel with
  | zero =>
      intro pos chunkIndex acc chunks h
      rw [chunkLoop] at h
      split at h
      · exact absurd h (by simp)
      · cases h
        exact ⟨[], by simp⟩
  | succ fuel ih =>
      intro pos chunkIndex acc chunks h
      have hstep : ∀ (added : TPChunk) (pos' : Nat),
          added.chunkIndex = chunkIndex →
          chunkLoop tok text basePos fuel pos' (chunkIndex + 1) (acc ++ [added])
            = some chunks →
          ∃ tail, chunks = acc ++ tail
            ∧ tail.map (fun c => c.chunkIndex) = List.range' chunkIndex tail.length := by
        intro added pos' hidx hrec
        obtain ⟨tail', hc, hmap⟩ := ih pos' (chunkIndex + 1) (acc ++ [added]) chunks hrec
        refine ⟨added :: tail', by simpa [List.append_assoc] using hc, ?_⟩
        have : List.range' chunkIndex (tail'.length + 1)
            = chunkIndex :: List.range' (chunkIndex + 1) tail'.length := by
          simpa using List.range'_succ chunkIndex tail'.length 1
        simp [this, hidx, hmap]
      rw [chunkLoop] at h
      split at h
      · dsimp only at h
        split at h
        · exact ih _ chunkIndex acc chunks h
        · split at h
          · exact ih _ chunkIndex acc chunks h
          · split at h
            · split at h
              · exact hstep _ _ rfl h
              · exact hstep _ _ rfl h
            · exact hstep _ _ rfl h
      · cases h
        exact ⟨[], by simp⟩

/-- `createTokenBasedChunks` numbers its chunks contiguously from
`startingIndex` and backfills every `totalChunks` with the section's
final chunk count. -/
theorem createTokenBasedChunks_spec (tok : Str → Nat) (text : Str)
    (basePos startingIndex : Nat) :
    (createTokenBasedChunks tok text basePos startingIndex).map (fun c => c.chunkIndex)
      = List.range' startingIndex (createTokenBasedChunks tok text basePos startingIndex).length
    ∧ ∀ c ∈ createTokenBasedChunks tok text basePos startingIndex,
        c.totalChunks = (createTokenBasedChunks tok text basePos startingIndex).length := by
  rw [createTokenBasedChunks]
  cases hloop : chunkLoop tok text basePos (text.length + 1) 0 startingIndex [] with
  | none => simp
  | some chunks =>
      obtain ⟨tail, hc, hmap⟩ :=
        chunkLoop_indexes tok text basePos _ 0 startingIndex [] chunks hloop
      rw [List.nil_append] at hc
      subst hc
      constructor
      · simpa [List.map_map, Function.comp] using hmap
      · intro c hcmem
        obtain ⟨c0, _, hc0⟩ := List.mem_map.mp hcmem
        simp [← hc0]

/-- Across `processFile`'s per-section loop, chunk indexes stay
contiguous from the running global counter. -/
theorem processSections_indexes (tok : Str → Nat) :
    ∀ (secs : List SectionRec) (gidx : Nat),
      (processSections tok secs gidx).map (fun c => c.chunkIndex)
        = List.range' gidx (processSections tok secs gidx).length := by
  intro secs
  induction secs with
  | nil => intro gidx; simp [processSections]
  | cons sec rest ih =>
      intro gidx
      simp only [processSections]
      rw [List.map_append, (createTokenBasedChunks_spec tok sec.content sec.position gidx).1,
        ih (gidx + (createTokenBasedChunks tok sec.content sec.position gidx).length),
        List.length_append]
      have := List.range'_append gidx
        (createTokenBasedChunks tok sec.content sec.position gidx).length
        (processSections tok rest
          (gidx + (createTokenBasedChunks tok sec.content sec.position gidx).length)).length 1
      rw [Nat.add_comm
        (createTokenBasedChunks tok sec.content sec.position gidx).length
        (processSections tok rest
          (gidx + (createTokenBasedChunks tok sec.content sec.position gidx).length)).length,
        ← this, one_mul]

end TextProc

/-- C2 (amended): for every token counter and document, (a) the
`chunkIndex` values over the whole document form the contiguous range
`[0, N)` where `N` is the document's final chunk count; (b) every chunk's
`totalChunks` equals the chunk count of the `createTokenBasedChunks` call
(= section) that produced it — not necessarily the document count; and
(c) when section extraction yields a single section, every chunk's
`totalChunks` does equal the document's final chunk count. -/
theorem C2_chunk_index_contiguous_totalChunks_per_section (tok : TextProc.Str → Nat)
    (fileName content : TextProc.Str) :
    ((TextProc.processFile tok fileName content).map (fun c => c.chunkIndex)
      = List.range' 0 (TextProc.processFile tok fileName content).length)
    ∧ (∀ (text : TextProc.Str) (basePos startingIndex : Nat),
        ∀ c ∈ TextProc.createTokenBasedChunks tok text basePos startingIndex,
          c.totalChunks
            = (TextProc.createTokenBasedChunks tok text basePos startingIndex).length)
    ∧ ((TextProc.extractSections (TextProc.cleanTextList content) fileName).length = 1 →
        ∀ c ∈ TextProc.processFile tok fileName content,
          c.totalChunks = (TextProc.processFile tok fileName content).length) := by
  refine ⟨TextProc.processSections_indexes tok _ 0,
    fun text basePos startingIndex =>
      (TextProc.createTokenBasedChunks_spec tok text basePos startingIndex).2, ?_⟩
  intro hone c hcmem
  obtain ⟨sec, hsec⟩ := List.length_eq_one.mp hone
  have hpf : TextProc.processFile tok fileName content
      = TextProc.createTokenBasedChunks tok sec.content sec.position 0 := by
    rw [TextProc.processFile, hsec, TextProc.processSections]
    simp [TextProc.processSections]
  rw [hpf] at hcmem ⊢
  exact (TextProc.createTokenBasedChunks_spec tok sec.content sec.position 0).2 c hcmem

set_option maxRecDepth 40000 in
/-- C2 (counterexample): the concrete two-section markdown document
produces two chunks for the whole document (one per section) with
`chunkIndex` 0 and 1, but BOTH carry `totalChunks = 1` — the per-section
backfill — so the claimed document-wide `totalChunks = 2` fails, and the
second chunk violates `chunkIndex < totalChunks`. -/
theorem C2_totalChunks_not_document_wide :
    (TextProc.processFile TextProc.approxTokens ("doc.md".toList)
        TextProc.sampleTwoSections).map (fun c => (c.chunkIndex, c.totalChunks))
      = [(0, 1), (1, 1)]
    ∧ (TextProc.processFile TextProc.approxTokens ("doc.md".toList)
        TextProc.sampleTwoSections).length = 2
    ∧ ¬ (∀ c ∈ TextProc.processFile TextProc.approxTokens ("doc.md".toList)
          TextProc.sampleTwoSections,
        c.totalChunks = (TextProc.processFile TextProc.approxTokens ("doc.md".toList)
          TextProc.sampleTwoSections).length) := by
  refine ⟨by decide, by decide, ?_⟩
  intro hall
  have h2 : (TextProc.processFile TextProc.approxTokens ("doc.md".toList)
      TextProc.sampleTwoSections).length = 2 := by decide
  have hmem : ∃ c ∈ TextProc.processFile TextProc.approxTokens ("doc.md".toList)
      TextProc.sampleTwoSections, c.totalChunks = 1 := by decide
  obtain ⟨c, hcmem, hc1⟩ := hmem
  have := hall c hcmem
  rw [h2, hc1] at this
  exact absurd this (by decide)

set_option maxRecDepth 40000 in
/-- C2 witness: the amended theorem applied to the concrete
single-section document, whose sole chunk carries the document-wide
count. -/
theorem C2_chunk_index_contiguous_witness :
    ((TextProc.extractSections (TextProc.cleanTextList TextProc.sampleOneSection)
        ("doc.md".toList)).length = 1)
    ∧ (∀ c ∈ TextProc.processFile TextProc.approxTokens ("doc.md".toList)
          TextProc.sampleOneSection,
        c.totalChunks = (TextProc.processFile TextProc.approxTokens ("doc.md".toList)
          TextProc.sampleOneSection).length)
    ∧ ((TextProc.processFile TextProc.approxTokens ("doc.md".toList)
          TextProc.sampleOneSection).map (fun c => c.chunkIndex)
        = List.range' 0 (TextProc.processFile TextProc.approxTokens ("doc.md".toList)
            TextProc.sampleOneSection).length) :=
  ⟨by decide,
   (C2_chunk_index_contiguous_totalChunks_per_section TextProc.approxTokens
      ("doc.md".toList) TextProc.sampleOneSection).2.2 (by decide),
   (C2_chunk_index_contiguous_totalChunks_per_section TextProc.approxTokens
      ("doc.md".toList) TextProc.sampleOneSection).1⟩
